import Mathlib

/-!
Verification development for the content-addressed backup engine
(`src/Backup/Backup.py` of Common_EnvironmentEx).

Python strings are embedded as `List Char` (`PyStr`), Python dicts
(insertion-ordered, CPython 3.7 semantics) as association lists, and the
relevant functions of the program as executable Lean definitions translated
directly from the source.  Path manipulation follows CPython's `ntpath`
(the Windows implementation of `os.path`), which is the platform on which
the multi-drive name mapper of `_CreateWork` is operative.
-/

/-- Python strings, embedded as lists of characters. -/
abbrev PyStr := List Char

/-- A character that `ntpath` treats as a path separator (`\` or `/`). -/
def isWinSep (c : Char) : Bool :=
  c = '\\' || c = '/'

/-- `s.find(sep, start)` of Python, restricted to a character predicate:
index of the first character from position `start` satisfying `pred`. -/
def findFrom (pred : Char → Bool) (p : PyStr) (start : Nat) : Option Nat :=
  match (p.drop start).findIdx? pred with
  | some i => some (start + i)
  | none => none

/-- `ntpath.splitdrive` (CPython 3.7): splits a Windows path into the
drive/UNC prefix and the rest. -/
def splitdrive (p : PyStr) : PyStr × PyStr :=
  if 2 ≤ p.length then
    if isWinSep (p.getD 0 ' ') ∧ isWinSep (p.getD 1 ' ') ∧ ¬ isWinSep (p.getD 2 'x') then
      match findFrom isWinSep p 2 with
      | none => ([], p)
      | some index =>
        match findFrom isWinSep p (index + 1) with
        | some index2 =>
          if index2 = index + 1 then ([], p) else (p.take index2, p.drop index2)
        | none => (p, [])
    else if p.getD 1 ' ' = ':' then (p.take 2, p.drop 2)
    else ([], p)
  else ([], p)

/-- Whether the first character of a string is a Windows path separator. -/
def headIsSep (p : PyStr) : Bool :=
  match p with
  | c :: _ => isWinSep c
  | [] => false

/-- Whether the last character of a string is a Windows path separator. -/
def lastIsSep (p : PyStr) : Bool :=
  match p.getLast? with
  | some c => isWinSep c
  | none => false

/-- Python `str.lower`, character-wise. -/
def lowerPy (p : PyStr) : PyStr :=
  p.map Char.toLower

/-- One step of `ntpath.join` (CPython 3.7): combine the accumulated
`(result_drive, result_path)` with the next component. -/
def ntjoinStep (acc : PyStr × PyStr) (p : PyStr) : PyStr × PyStr :=
  let rd := acc.1
  let rp := acc.2
  let pd := (splitdrive p).1
  let pp := (splitdrive p).2
  if headIsSep pp then
    (if pd ≠ [] ∨ rd = [] then pd else rd, pp)
  else if pd ≠ [] ∧ pd ≠ rd then
    if lowerPy pd ≠ lowerPy rd then
      (pd, pp)
    else
      let rp2 := if rp ≠ [] ∧ ¬ lastIsSep rp then rp ++ ['\\'] else rp
      (pd, rp2 ++ pp)
  else
    let rp2 := if rp ≠ [] ∧ ¬ lastIsSep rp then rp ++ ['\\'] else rp
    (rd, rp2 ++ pp)

/-- `ntpath.join` (CPython 3.7): `os.path.join` on Windows. -/
def ntjoin (path : PyStr) (paths : List PyStr) : PyStr :=
  let r := paths.foldl ntjoinStep (splitdrive path)
  let rd := r.1
  let rp := r.2
  if rp ≠ [] ∧ ¬ headIsSep rp ∧ rd ≠ [] ∧ (rd.getLast?).getD ' ' ≠ ':' then
    rd ++ '\\' :: rp
  else
    rd ++ rp

/-- Modelled from the spec: `strip_leading_sep` — `FileSystem.RemoveInitialSep`
of the external CommonEnvironment library (not part of this repository's
sources); removes a single leading `os.path.sep`. -/
def removeInitialSep (p : PyStr) : PyStr :=
  match p with
  | c :: rest => if c = '\\' then rest else c :: rest
  | [] => []

/-- Modelled from the spec: appending a trailing separator
(`FileSystem.AddTrailingSep` of the external CommonEnvironment library). -/
def addTrailingSep (p : PyStr) : PyStr :=
  if (p.getLast?).getD ' ' = '\\' then p else p ++ ['\\']

/-- Longest common prefix of two component lists. -/
def commonComponents : List PyStr → List PyStr → List PyStr
  | a :: as, b :: bs => if a = b then a :: commonComponents as bs else []
  | _, _ => []

/-- Python `str.split(sep)` for a one-character separator. -/
def splitSep (sep : Char) (p : PyStr) : List PyStr :=
  p.foldr
    (fun c acc =>
      match acc with
      | [] => if c = sep then [[], []] else [[c]]
      | first :: rest => if c = sep then [] :: first :: rest else (c :: first) :: rest)
    [[]]

/-- Modelled from the spec: `common_path_of` — `FileSystem.GetCommonPath` of
the external CommonEnvironment library: longest common directory prefix of
the given paths (component-wise). -/
def getCommonPath (paths : List PyStr) : PyStr :=
  match paths.map (splitSep '\\') with
  | [] => []
  | c :: cs => List.intercalate ['\\'] (cs.foldl commonComponents c)

/-- Python `s.startswith(pat)`. -/
def startsWithPy : PyStr → PyStr → Bool
  | _, [] => true
  | [], _ :: _ => false
  | c :: cs, d :: ds => c = d && startsWithPy cs ds

/-- Auxiliary recursion of `pyReplace` for a non-empty pattern: scan left to
right, replacing each occurrence.  Structural recursion on a fuel that the
caller sets to the string's length; every step consumes at least one
character, so the fuel never runs out before the string does. -/
def pyReplaceAux (pat rep : PyStr) : Nat → PyStr → PyStr
  | 0, s => s
  | _ + 1, [] => []
  | fuel + 1, c :: rest =>
    if startsWithPy (c :: rest) pat then
      rep ++ pyReplaceAux pat rep fuel ((c :: rest).drop pat.length)
    else
      c :: pyReplaceAux pat rep fuel rest

/-- Python `str.replace(pat, rep)`: replace every non-overlapping occurrence,
scanning left to right (including CPython's empty-pattern behavior). -/
def pyReplace (s pat rep : PyStr) : PyStr :=
  match pat with
  | [] => rep ++ s.foldr (fun c acc => c :: rep ++ acc) []
  | q :: qs => pyReplaceAux (q :: qs) rep s.length s

/-- Python string `<` (lexicographic by code point). -/
def pyStrLt : PyStr → PyStr → Bool
  | _, [] => false
  | [], _ :: _ => true
  | a :: as, b :: bs =>
    if a.val < b.val then true
    else if a.val = b.val then pyStrLt as bs
    else false

/-- Python string `<=`. -/
def pyStrLe (a b : PyStr) : Bool :=
  pyStrLt a b || a == b

/-- Whether a list of strings is in ascending Python-sorted order. -/
def isSortedAsc : List PyStr → Bool
  | [] => true
  | [_] => true
  | a :: b :: rest => pyStrLe a b && isSortedAsc (b :: rest)

/-- Stable insertion of one element into a sorted list. -/
def insertSortedBy (le : α → α → Bool) (x : α) : List α → List α
  | [] => [x]
  | y :: ys => if le x y then x :: y :: ys else y :: insertSortedBy le x ys

/-- Python `sorted` (stable, ascending by `le`). -/
def pySortBy (le : α → α → Bool) (l : List α) : List α :=
  l.foldr (insertSortedBy le) []

/-- Lookup in a Python dict modelled as an insertion-ordered association
list (first — and only — binding of the key). -/
def dictGet [DecidableEq κ] (m : List (κ × α)) (k : κ) : Option α :=
  match m with
  | [] => none
  | (k0, v0) :: rest => if k0 = k then some v0 else dictGet rest k

/-- `d[k] = v` of a Python dict: update in place when the key exists,
append otherwise (CPython 3.7 ordering semantics). -/
def dictSet [DecidableEq κ] (m : List (κ × α)) (k : κ) (v : α) : List (κ × α) :=
  match m with
  | [] => [(k, v)]
  | (k0, v0) :: rest => if k0 = k then (k0, v) :: rest else (k0, v0) :: dictSet rest k v

/-- `del d[k]` of a Python dict (removes the binding when present). -/
def dictDel [DecidableEq κ] (m : List (κ × α)) (k : κ) : List (κ × α) :=
  match m with
  | [] => []
  | (k0, v0) :: rest => if k0 = k then rest else (k0, v0) :: dictDel rest k

/-- `k in d` of a Python dict. -/
def dictContains [DecidableEq κ] (m : List (κ × α)) (k : κ) : Bool :=
  (dictGet m k).isSome

/-- `_FileInfo` of `Backup.py`: name, size, last-modified time (modelled as a
rational number of seconds) and optional lowercase-hex SHA-256 digest. -/
structure FileInfo where
  Name : PyStr
  Size : Nat
  LastModified : ℚ
  Hash : Option PyStr
deriving DecidableEq, Repr

/-- The mtime comparison `abs(a - b) <= 0.00001` of `_FileInfo.AreEqual`,
computed over numerators and denominators so that it evaluates by kernel
reduction; `mtimeWithinTolerance_iff` below proves it equivalent to the
rational-number statement `|a - b| ≤ 1/100000`. -/
def mtimeWithinTolerance (a b : ℚ) : Bool :=
  decide ((a.num * b.den - b.num * a.den).natAbs * 100000 ≤ a.den * b.den)

/-- `_FileInfo.AreEqual`: size equal, last-modified within `0.00001`, and —
unless hash comparison is disabled — equal hashes. -/
def FileInfo.AreEqual (self other : FileInfo) (compare_hashes : Bool) : Bool :=
  decide (self.Size = other.Size) &&
  mtimeWithinTolerance self.LastModified other.LastModified &&
  (!compare_hashes || decide (self.Hash = other.Hash))

/-- The identity `ToDest` of `_CreateWork` (no local destination directory,
e.g. the offsite snapshot path). -/
def toDestIdentity (filename : PyStr) : PyStr :=
  filename

/-- The identity `FromDest` of `_CreateWork`. -/
def fromDestIdentity (filename : PyStr) : PyStr :=
  filename

/-- `IsMultiDrive` of `_CreateWork`: whether two source files reside on
different drives (early exit once a second drive is seen). -/
def isMultiDrive (source_file_info : List FileInfo) : Bool :=
  (source_file_info.foldl
    (fun st fi =>
      match st with
      | (true, d) => (true, d)
      | (false, d) =>
        let this_drive := (splitdrive fi.Name).1
        match d with
        | none => (false, some this_drive)
        | some d0 => if this_drive ≠ d0 then (true, some d0) else (false, some d0))
    (false, none)).1

/-- `ToDest` of the multi-drive branch of `_CreateWork`: escape `:` to `_`
in the drive and join below the destination directory. -/
def toDestMulti (dest : PyStr) (filename : PyStr) : PyStr :=
  let drive := (splitdrive filename).1
  let suffix := (splitdrive filename).2
  let drive2 := drive.map (fun c => if c = ':' then '_' else c)
  let suffix2 := removeInitialSep suffix
  ntjoin dest [drive2, suffix2]

/-- `FromDest` of the multi-drive branch of `_CreateWork`: strip the
destination prefix, split into components, restore `:` in the first
component and rejoin with `os.path.join`.  (The source asserts that
`filename` starts with the destination directory.) -/
def fromDestMulti (dest : PyStr) (filename : PyStr) : PyStr :=
  let f1 := filename.drop dest.length
  let f2 := removeInitialSep f1
  let parts := splitSep '\\' f2
  match parts with
  | [] => []
  | p0 :: rest => ntjoin (p0.map (fun c => if c = '_' then ':' else c)) rest

/-- `ToDest` of the single-root branch of `_CreateWork`: strip the common
source prefix (which carries a trailing separator) and join below the
destination directory.  (The source asserts the common-prefix property.) -/
def toDestSingle (dest common_path : PyStr) (filename : PyStr) : PyStr :=
  ntjoin dest [filename.drop common_path.length]

/-- `FromDest` of the single-root branch of `_CreateWork`. -/
def fromDestSingle (dest common_path : PyStr) (filename : PyStr) : PyStr :=
  ntjoin common_path [removeInitialSep (filename.drop dest.length)]

/-- One source entry of the `_CreateWork` planning loop: `none` when the
source file matches its destination counterpart, otherwise the add
(destination filename) or modify (destination `_FileInfo`) record. -/
def workEntry (dest_map : List (PyStr × FileInfo)) (toDest : PyStr → PyStr)
    (simple_compare : Bool) (sfi : FileInfo) : Option (FileInfo × (PyStr ⊕ FileInfo)) :=
  match dictGet dest_map (toDest sfi.Name) with
  | none => some (sfi, Sum.inl (toDest sfi.Name))
  | some dfi => if sfi.AreEqual dfi (!simple_compare) then none else some (sfi, Sum.inr dfi)

/-- The result of `_CreateWork`: the ordered add/modify records (the
non-`None` keys of the returned dict), the ordered remove records (the
`None` key), and the `matched` counter. -/
structure Work where
  addsMods : List (FileInfo × (PyStr ⊕ FileInfo))
  removes : List FileInfo
  matched : Nat
deriving DecidableEq, Repr

/-- `_CreateWork` over already-built source/destination maps and name
mapping functions. -/
def createWork (source_map dest_map : List (PyStr × FileInfo))
    (toDest fromDest : PyStr → PyStr) (simple_compare : Bool) : Work where
  addsMods := source_map.filterMap (fun p => workEntry dest_map toDest simple_compare p.2)
  removes :=
    (dest_map.filter (fun p => !dictContains source_map (fromDest p.2.Name))).map Prod.snd
  matched :=
    (source_map.filter (fun p => (workEntry dest_map toDest simple_compare p.2).isNone)).length

/-- The `added` counter of `_CreateWork`. -/
def Work.added (w : Work) : Nat :=
  (w.addsMods.filter (fun e => e.2.isLeft)).length

/-- The `modified` counter of `_CreateWork`. -/
def Work.modified (w : Work) : Nat :=
  (w.addsMods.filter (fun e => e.2.isRight)).length

/-- The `removed` counter of `_CreateWork`. -/
def Work.removed (w : Work) : Nat :=
  w.removes.length

/-- Source filenames reported as adds (as displayed by `_Display`). -/
def Work.addNames (w : Work) : List PyStr :=
  (w.addsMods.filter (fun e => e.2.isLeft)).map (fun e => e.1.Name)

/-- Source filenames reported as modifies. -/
def Work.modNames (w : Work) : List PyStr :=
  (w.addsMods.filter (fun e => e.2.isRight)).map (fun e => e.1.Name)

/-- Destination filenames reported as removes. -/
def Work.removeNames (w : Work) : List PyStr :=
  w.removes.map FileInfo.Name

/-- Source filenames counted as matched by `_CreateWork`. -/
def matchedNames (source_map dest_map : List (PyStr × FileInfo)) (toDest : PyStr → PyStr)
    (simple_compare : Bool) : List PyStr :=
  (source_map.filter (fun p => (workEntry dest_map toDest simple_compare p.2).isNone)).map
    Prod.fst

/-- The `{ sfi.Name : sfi for sfi in ... }` dict comprehension of
`_CreateWork`. -/
def buildMap (fis : List FileInfo) : List (PyStr × FileInfo) :=
  fis.foldl (fun m fi => dictSet m fi.Name fi) []

/-- Well-formedness of a name-keyed map: each binding is keyed by the
file's name, and keys are unique. -/
def MapWF (m : List (PyStr × FileInfo)) : Prop :=
  (∀ p ∈ m, p.1 = p.2.Name) ∧ (m.map Prod.fst).Nodup

instance (m : List (PyStr × FileInfo)) : Decidable (MapWF m) := by
  unfold MapWF
  infer_instance

/-- One record of a snapshot's `data.json`, as written by `Offsite`. -/
structure DataEntry where
  filename : PyStr
  hash : Option PyStr
  operation : PyStr
deriving DecidableEq, Repr

/-- The "Creating Application Data" phase of `Offsite` (lines 354-377):
fold the work records into the `data` list and the `to_copy` dict of blobs
not yet present among `dest_hashes`. -/
def offsiteCreateData (work : Work) (dest_hashes0 : List (Option PyStr))
    (output_dir : PyStr) : List DataEntry × List (PyStr × PyStr) :=
  let step := fun (acc : List DataEntry × List (PyStr × PyStr) × List (Option PyStr))
      (e : FileInfo × (PyStr ⊕ FileInfo)) =>
    let data := acc.1
    let to_copy := acc.2.1
    let hashes := acc.2.2
    let sfi := e.1
    let tc :=
      if sfi.Hash ∈ hashes then (to_copy, hashes)
      else
        (dictSet to_copy sfi.Name (ntjoin output_dir [(sfi.Hash).getD []]),
         hashes ++ [sfi.Hash])
    let op := match e.2 with
      | Sum.inl _ => "add".toList
      | Sum.inr _ => "modify".toList
    (data ++ [⟨sfi.Name, sfi.Hash, op⟩], tc.1, tc.2)
  let r := work.addsMods.foldl step ([], [], dest_hashes0)
  (r.1 ++ work.removes.map (fun dfi => ⟨dfi.Name, dfi.Hash, "remove".toList⟩), r.2.1)

/-- The "Applying Content" decision of `Offsite` (lines 379-399): when the
`data` list is empty the operation prints "No content to apply.", sets the
result to 1 and returns without writing anything (`none`); otherwise the
output directory is emptied, `data.json` is written and the `to_copy`
blobs are copied (`some (data, to_copy)`). -/
def offsiteApply (work : Work) (dest_hashes : List (Option PyStr)) (output_dir : PyStr) :
    Option (List DataEntry × List (PyStr × PyStr)) :=
  let r := offsiteCreateData work dest_hashes output_dir
  if r.1.isEmpty then none else some r

/-- A file system fragment: filename → contents. -/
abbrev PyFS := List (PyStr × PyStr)

/-- `os.path.isfile` over the modelled file system. -/
def isfile (fs : PyFS) (p : PyStr) : Bool :=
  dictContains fs p

/-- `FileSystem.RemoveFile` of the external CommonEnvironment library:
removes the file when present (no error otherwise). -/
def removeFileFS (fs : PyFS) (p : PyStr) : PyFS :=
  dictDel fs p

/-- `shutil.move` (rename) over the modelled file system. -/
def moveFS (fs : PyFS) (src dst : PyStr) : PyFS :=
  match dictGet fs src with
  | some content => dictSet (dictDel fs src) dst content
  | none => fs

/-- `shutil.copy2` over the modelled file system. -/
def copyFS (fs : PyFS) (src dst : PyStr) : PyFS :=
  match dictGet fs src with
  | some content => dictSet fs dst content
  | none => fs

/-- The commit sequence of `CommitOffsite` (lines 578-579):
`FileSystem.RemoveFile(json_filename)` followed by
`shutil.move(pending_json_filename, json_filename)`. -/
def commitSwap (fs : PyFS) (json_filename : PyStr) : PyFS :=
  moveFS (removeFileFS fs json_filename) (json_filename ++ ".pending".toList) json_filename

/-- `CommitOffsite` (lines 569-586): error with result -1 when the
`.pending` file is absent; otherwise delete the live manifest, rename
`.pending` over it, and — when a (truthy) backup suffix is supplied —
copy the committed file to `<live>.<suffix>`. -/
def CommitOffsite (fs : PyFS) (json_filename : PyStr) (backup_suffix : Option PyStr) :
    PyFS × Int :=
  if isfile fs (json_filename ++ ".pending".toList) = false then
    (fs, -1)
  else
    (match backup_suffix with
     | some s =>
       if s ≠ [] then
         copyFS (commitSwap fs json_filename) json_filename (json_filename ++ '.' :: s)
       else
         commitSwap fs json_filename
     | none => commitSwap fs json_filename,
     0)

/-- One record of a snapshot's `data.json`, as read back by
`OffsiteRestore`. -/
structure RestoreEntry where
  filename : PyStr
  hash : PyStr
  operation : PyStr
deriving DecidableEq, Repr

/-- One snapshot directory seen by `OffsiteRestore`: its path, the parsed
`data.json` records, and the names (hashes) of the blob files present in
the directory. -/
structure SnapshotDir where
  path : PyStr
  entries : List RestoreEntry
  blobs : List PyStr
deriving DecidableEq, Repr

/-- The accumulator of the `OffsiteRestore` replay: `file_data`
(filename → blob path), `hashed_filenames` (hash → blob path), and the
number of per-entry errors recorded so far. -/
structure RestoreState where
  file_data : List (PyStr × PyStr)
  hashed_filenames : List (PyStr × PyStr)
  errors : Nat
deriving DecidableEq, Repr

/-- One manifest entry of the `OffsiteRestore` replay loop (lines 697-749).
A violation records an error and continues (`some` with `errors`
incremented) — except the missing-blob branch, whose error message
references the misspelled name `hasehd_filename` and therefore raises an
uncaught `NameError` that aborts the whole restore (`none`). -/
def processEntry (dir : SnapshotDir) (st : RestoreState) (e : RestoreEntry) :
    Option RestoreState :=
  if ¬ (e.operation = "add".toList ∨ e.operation = "modify".toList ∨
        e.operation = "remove".toList) then
    some { st with errors := st.errors + 1 }
  else if e.operation = "add".toList ∧ dictContains st.file_data e.filename then
    some { st with errors := st.errors + 1 }
  else if (e.operation = "modify".toList ∨ e.operation = "remove".toList) ∧
      ¬ dictContains st.file_data e.filename then
    some { st with errors := st.errors + 1 }
  else if e.operation = "add".toList ∨ e.operation = "modify".toList then
    match dictGet st.hashed_filenames e.hash with
    | some hf => some { st with file_data := dictSet st.file_data e.filename hf }
    | none =>
      if e.hash ∈ dir.blobs then
        let hf := ntjoin dir.path [e.hash]
        some { st with
               hashed_filenames := dictSet st.hashed_filenames e.hash hf,
               file_data := dictSet st.file_data e.filename hf }
      else
        none
  else
    some { st with file_data := dictDel st.file_data e.filename }

/-- Replay of one snapshot directory's manifest entries. -/
def processDir (st : RestoreState) (d : SnapshotDir) : Option RestoreState :=
  d.entries.foldlM (processEntry d) st

/-- The manifest-replay phase of `OffsiteRestore` (lines 621-751): sort the
snapshot directories by name ascending and fold their manifests into the
restore state.  `none` models the uncaught `NameError` of the missing-blob
branch aborting the operation. -/
def offsiteRestoreReplay (dirs : List SnapshotDir) : Option RestoreState :=
  let sorted := pySortBy (fun a b => pyStrLe a.path b.path) dirs
  sorted.foldlM processDir { file_data := [], hashed_filenames := [], errors := 0 }

/-- One `file_data[new_key] = file_data[key]; del file_data[key]` step of
the dir-substitution loop of `OffsiteRestore` (lines 754-762).  `none`
models the `KeyError` raised when `key` is no longer in the dict. -/
def applySubsOne (fd : List (PyStr × PyStr)) (key : PyStr) (sub : PyStr × PyStr) :
    Option (List (PyStr × PyStr)) :=
  match dictGet fd key with
  | none => none
  | some v0 =>
    let new_key := pyReplace key sub.1 sub.2
    some (dictDel (dictSet fd new_key v0) key)

/-- The dir-substitution pass of `OffsiteRestore` (lines 753-762): for each
(sorted) surviving filename, apply every substitution pair in turn. -/
def applyDirSubstitutions (dir_substitutions : List (PyStr × PyStr))
    (file_data : List (PyStr × PyStr)) : Option (List (PyStr × PyStr)) :=
  let keys := pySortBy pyStrLe (file_data.map Prod.fst)
  keys.foldlM (fun fd key => dir_substitutions.foldlM (fun fd s => applySubsOne fd key s) fd)
    file_data

/-- The include/exclude filter of `_GetFileInfo` (lines 926-964), with the
compiled regex match modelled as a boolean predicate per pattern: a file is
kept when no exclude pattern matches it and (when include patterns exist)
some include pattern matches it. -/
def filterInputFiles (includes excludes : List (PyStr → Bool))
    (input_files : List PyStr) : List PyStr :=
  if includes.isEmpty ∧ excludes.isEmpty then
    input_files
  else
    input_files.filter (fun f =>
      !(if excludes.isEmpty then false else excludes.any (fun r => r f)) &&
      (if includes.isEmpty then true else includes.any (fun r => r f)))

theorem dictGet_none_iff [DecidableEq κ] (m : List (κ × α)) (k : κ) :
    dictGet m k = none ↔ k ∉ m.map Prod.fst := by
  induction m with
  | nil => simp [dictGet]
  | cons p rest ih =>
    obtain ⟨k0, v0⟩ := p
    by_cases h : k0 = k
    · simp [dictGet, h]
    · simp [dictGet, h, ih, Ne.symm h]

theorem dictGet_set_self [DecidableEq κ] (m : List (κ × α)) (k : κ) (v : α) :
    dictGet (dictSet m k v) k = some v := by
  induction m with
  | nil => simp [dictSet, dictGet]
  | cons p rest ih =>
    obtain ⟨k0, v0⟩ := p
    by_cases h : k0 = k
    · simp [dictSet, dictGet, h]
    · simp [dictSet, dictGet, h, ih]

theorem dictGet_set_ne [DecidableEq κ] (m : List (κ × α)) (k k' : κ) (v : α)
    (h : k' ≠ k) : dictGet (dictSet m k v) k' = dictGet m k' := by
  have hne : k ≠ k' := Ne.symm h
  induction m with
  | nil => simp [dictSet, dictGet, hne]
  | cons p rest ih =>
    obtain ⟨k0, v0⟩ := p
    by_cases h0 : k0 = k
    · subst h0
      simp [dictSet, dictGet, hne]
    · simp [dictSet, dictGet, h0, ih]

theorem dictGet_del_ne [DecidableEq κ] (m : List (κ × α)) (k k' : κ)
    (h : k' ≠ k) : dictGet (dictDel m k) k' = dictGet m k' := by
  have hne : k ≠ k' := Ne.symm h
  induction m with
  | nil => simp [dictDel]
  | cons p rest ih =>
    obtain ⟨k0, v0⟩ := p
    by_cases h0 : k0 = k
    · subst h0
      simp [dictDel, dictGet, hne]
    · simp [dictDel, dictGet, h0, ih]

theorem mem_keys_of_mem_keys_dictDel [DecidableEq κ] (m : List (κ × α)) (k k' : κ)
    (h : k' ∈ (dictDel m k).map Prod.fst) : k' ∈ m.map Prod.fst := by
  induction m with
  | nil => simp [dictDel] at h
  | cons p rest ih =>
    obtain ⟨k0, v0⟩ := p
    by_cases h0 : k0 = k
    · simp only [dictDel, if_pos h0] at h
      simp only [List.map_cons, List.mem_cons]
      exact Or.inr h
    · simp only [dictDel, if_neg h0, List.map_cons, List.mem_cons] at h ⊢
      rcases h with h | h
      · exact Or.inl h
      · exact Or.inr (ih h)

theorem dictGet_del_self [DecidableEq κ] (m : List (κ × α)) (k : κ)
    (hnd : (m.map Prod.fst).Nodup) : dictGet (dictDel m k) k = none := by
  induction m with
  | nil => simp [dictDel, dictGet]
  | cons p rest ih =>
    obtain ⟨k0, v0⟩ := p
    simp only [List.map_cons, List.nodup_cons] at hnd
    by_cases h0 : k0 = k
    · subst h0
      simp only [dictDel, if_pos rfl]
      exact (dictGet_none_iff rest k0).mpr hnd.1
    · simp [dictDel, dictGet, h0, ih hnd.2]

theorem mem_keys_dictSet [DecidableEq κ] (m : List (κ × α)) (k k' : κ) (v : α)
    (h : k' ∈ (dictSet m k v).map Prod.fst) : k' ∈ m.map Prod.fst ∨ k' = k := by
  induction m with
  | nil => simpa [dictSet] using h
  | cons p rest ih =>
    obtain ⟨k0, v0⟩ := p
    by_cases h0 : k0 = k
    · subst h0
      rw [show dictSet ((k0, v0) :: rest) k0 v = (k0, v) :: rest from by simp [dictSet]] at h
      simp only [List.map_cons, List.mem_cons] at h
      exact Or.inl (by simp only [List.map_cons, List.mem_cons]; exact h)
    · simp only [dictSet, if_neg h0, List.map_cons, List.mem_cons] at h
      rcases h with h | h
      · exact Or.inl (by simp only [List.map_cons, List.mem_cons]; exact Or.inl h)
      · rcases ih h with h2 | h2
        · exact Or.inl (by simp only [List.map_cons, List.mem_cons]; exact Or.inr h2)
        · exact Or.inr h2

theorem nodup_keys_dictSet [DecidableEq κ] (m : List (κ × α)) (k : κ) (v : α)
    (hnd : (m.map Prod.fst).Nodup) : ((dictSet m k v).map Prod.fst).Nodup := by
  induction m with
  | nil => simp [dictSet]
  | cons p rest ih =>
    obtain ⟨k0, v0⟩ := p
    simp only [List.map_cons, List.nodup_cons] at hnd
    by_cases h0 : k0 = k
    · subst h0
      rw [show dictSet ((k0, v0) :: rest) k0 v = (k0, v) :: rest from by simp [dictSet]]
      simp only [List.map_cons, List.nodup_cons]
      exact hnd
    · simp only [dictSet, if_neg h0, List.map_cons, List.nodup_cons]
      refine ⟨fun hmem => ?_, ih hnd.2⟩
      rcases mem_keys_dictSet rest k k0 v hmem with h | h
      · exact hnd.1 h
      · exact h0 h

theorem nodup_keys_dictDel [DecidableEq κ] (m : List (κ × α)) (k : κ)
    (hnd : (m.map Prod.fst).Nodup) : ((dictDel m k).map Prod.fst).Nodup := by
  induction m with
  | nil => simp [dictDel]
  | cons p rest ih =>
    obtain ⟨k0, v0⟩ := p
    simp only [List.map_cons, List.nodup_cons] at hnd
    by_cases h0 : k0 = k
    · simpa [dictDel, h0] using hnd.2
    · simp only [dictDel, if_neg h0, List.map_cons, List.nodup_cons]
      exact ⟨fun hmem => hnd.1 (mem_keys_of_mem_keys_dictDel rest k k0 hmem), ih hnd.2⟩

theorem nodup_dictGet [DecidableEq κ] (m : List (κ × α))
    (hnd : (m.map Prod.fst).Nodup) (p : κ × α) (hp : p ∈ m) :
    dictGet m p.1 = some p.2 := by
  induction m with
  | nil => cases hp
  | cons q rest ih =>
    simp only [List.map_cons, List.nodup_cons] at hnd
    rcases List.mem_cons.mp hp with h | h
    · subst h
      obtain ⟨k0, v0⟩ := p
      simp [dictGet]
    · have hne : q.1 ≠ p.1 := fun he => hnd.1 (he ▸ List.mem_map_of_mem Prod.fst h)
      obtain ⟨kq, vq⟩ := q
      simp only [dictGet, if_neg hne]
      exact ih hnd.2 h

theorem nodup_keys_mem_eq [DecidableEq κ] {m : List (κ × α)}
    (hnd : (m.map Prod.fst).Nodup) {p q : κ × α}
    (hp : p ∈ m) (hq : q ∈ m) (hk : p.1 = q.1) : p = q := by
  have h1 := nodup_dictGet m hnd p hp
  have h2 := nodup_dictGet m hnd q hq
  rw [hk, h2] at h1
  obtain ⟨kp, vp⟩ := p
  obtain ⟨kq, vq⟩ := q
  simp only at hk
  cases hk
  cases Option.some.inj h1
  rfl

theorem workEntry_some_fst (dest_map : List (PyStr × FileInfo)) (toDest : PyStr → PyStr)
    (sc : Bool) (sfi : FileInfo) (x : FileInfo × (PyStr ⊕ FileInfo))
    (h : workEntry dest_map toDest sc sfi = some x) : x.1 = sfi := by
  unfold workEntry at h
  rcases hd : dictGet dest_map (toDest sfi.Name) with _ | dfi
  · simp only [hd] at h
    exact congrArg Prod.fst (Option.some.inj h).symm
  · simp only [hd] at h
    by_cases he : sfi.AreEqual dfi (!sc) = true
    · simp [he] at h
    · simp only [if_neg he] at h
      exact congrArg Prod.fst (Option.some.inj h).symm

theorem length_filterMap_add_none (f : α → Option β) (l : List α) :
    (l.filterMap f).length + (l.filter (fun a => (f a).isNone)).length = l.length := by
  induction l with
  | nil => simp
  | cons a rest ih =>
    rcases hf : f a with _ | b
    · rw [List.filterMap_cons_none hf, List.filter_cons_of_pos (by simp [hf])]
      simp only [List.length_cons]
      omega
    · rw [List.filterMap_cons_some hf, List.filter_cons_of_neg (by simp [hf])]
      simp only [List.length_cons]
      omega

theorem length_filter_left_add_right (l : List (β × (γ ⊕ δ))) :
    (l.filter (fun e => e.2.isLeft)).length + (l.filter (fun e => e.2.isRight)).length =
      l.length := by
  induction l with
  | nil => simp
  | cons a rest ih =>
    rcases a with ⟨b, s | s⟩
    · rw [List.filter_cons_of_pos (by simp), List.filter_cons_of_neg (by simp)]
      simp only [List.length_cons]
      omega
    · rw [List.filter_cons_of_neg (by simp), List.filter_cons_of_pos (by simp)]
      simp only [List.length_cons]
      omega

theorem sublist_map_filterMap (f : α → Option β) (g : β → γ) (h : α → γ)
    (H : ∀ a b, f a = some b → g b = h a) (l : List α) :
    ((l.filterMap f).map g).Sublist (l.map h) := by
  induction l with
  | nil => simp
  | cons a rest ih =>
    rcases hf : f a with _ | b
    · rw [List.filterMap_cons_none hf, List.map_cons]
      exact ih.cons (h a)
    · rw [List.filterMap_cons_some hf, List.map_cons, List.map_cons, H a b hf]
      exact ih.cons₂ (h a)

theorem mtimeWithinTolerance_iff (a b : ℚ) :
    mtimeWithinTolerance a b = true ↔ |a - b| ≤ 1 / 100000 := by
  have hA : (0 : ℚ) < (a.den : ℚ) := by exact_mod_cast a.den_pos
  have hB : (0 : ℚ) < (b.den : ℚ) := by exact_mod_cast b.den_pos
  have hD : ((a.den * b.den : ℕ) : ℚ) ≠ 0 :=
    Nat.cast_ne_zero.mpr (Nat.mul_ne_zero a.den_nz b.den_nz)
  have hDpos : (0 : ℚ) < ((a.den * b.den : ℕ) : ℚ) := by
    push_cast
    exact mul_pos hA hB
  have hnum_a : (a.num : ℚ) = a * (a.den : ℚ) :=
    (div_eq_iff (ne_of_gt hA)).mp (Rat.num_div_den a)
  have hnum_b : (b.num : ℚ) = b * (b.den : ℚ) :=
    (div_eq_iff (ne_of_gt hB)).mp (Rat.num_div_den b)
  have key : ((a.num * b.den - b.num * a.den : ℤ) : ℚ) / ((a.den * b.den : ℕ) : ℚ) =
      a - b := by
    rw [div_eq_iff hD]
    push_cast [hnum_a, hnum_b]
    ring
  have habs : |((a.num * b.den - b.num * a.den : ℤ) : ℚ)| =
      (((a.num * b.den - b.num * a.den).natAbs : ℕ) : ℚ) := by
    rw [Int.cast_natAbs, Int.cast_abs]
  rw [mtimeWithinTolerance, decide_eq_true_iff, ← key, abs_div, abs_of_pos hDpos,
      div_le_div_iff₀ hDpos (by norm_num), habs, one_mul]
  exact_mod_cast Iff.rfl

theorem FileInfo.areEqual_refl (fi : FileInfo) (ch : Bool) :
    fi.AreEqual fi ch = true := by
  simp [FileInfo.AreEqual, mtimeWithinTolerance]

/-- C1: Name-map round-trip.  The identity mapper round-trips for every
path, and the single-root rebase mapper round-trips (both directions) on a
concrete two-file source set; but the multi-drive mapper violates the
claim: restoring the drive gives `os.path.join('C:', 'a', 'x.txt')`, a
drive-relative path `C:a\x.txt` missing the separator after the volume, so
`FromDest (ToDest p) ≠ p` for the source file `C:\a\x.txt`. -/
theorem C1_name_map_round_trip :
    (∀ p : PyStr, fromDestIdentity (toDestIdentity p) = p ∧
        toDestIdentity (fromDestIdentity p) = p)
  ∧ (fromDestSingle ("D:\\backup".toList)
        (addTrailingSep (getCommonPath
          [("C:\\src\\a\\x.txt".toList), ("C:\\src\\b\\y.txt".toList)]))
        (toDestSingle ("D:\\backup".toList)
          (addTrailingSep (getCommonPath
            [("C:\\src\\a\\x.txt".toList), ("C:\\src\\b\\y.txt".toList)]))
          ("C:\\src\\a\\x.txt".toList)) = "C:\\src\\a\\x.txt".toList)
  ∧ (toDestSingle ("D:\\backup".toList)
        (addTrailingSep (getCommonPath
          [("C:\\src\\a\\x.txt".toList), ("C:\\src\\b\\y.txt".toList)]))
        (fromDestSingle ("D:\\backup".toList)
          (addTrailingSep (getCommonPath
            [("C:\\src\\a\\x.txt".toList), ("C:\\src\\b\\y.txt".toList)]))
          ("D:\\backup\\a\\x.txt".toList)) = "D:\\backup\\a\\x.txt".toList)
  ∧ isMultiDrive [⟨"C:\\a\\x.txt".toList, 1, 0, none⟩, ⟨"D:\\b\\y.txt".toList, 1, 0, none⟩] =
      true
  ∧ fromDestMulti ("E:\\backup".toList)
      (toDestMulti ("E:\\backup".toList) ("C:\\a\\x.txt".toList)) = "C:a\\x.txt".toList
  ∧ ("C:a\\x.txt".toList : PyStr) ≠ "C:\\a\\x.txt".toList := by
  exact ⟨fun p => ⟨rfl, rfl⟩, by decide, by decide, by decide, by decide, by decide⟩

/-- C2: During restore replay a malformed operation, a duplicate `add`, and
a `modify` or `remove` of an unknown filename each record an error result
for the snapshot and processing continues with the next entry; but an
`add` or `modify` whose hash has no blob file (and was not resolved by an
earlier snapshot) aborts the entire restore — the error branch raises an
uncaught `NameError` on the misspelled variable `hasehd_filename` — rather
than recording an error for that entry and continuing. -/
theorem C2_restore_violation_handling :
    offsiteRestoreReplay [⟨"r\\1".toList,
        [⟨"f".toList, "h1".toList, "frobnicate".toList⟩,
         ⟨"f".toList, "h1".toList, "add".toList⟩], ["h1".toList]⟩] =
      some ⟨[(("f".toList), ("r\\1\\h1".toList))], [(("h1".toList), ("r\\1\\h1".toList))], 1⟩
  ∧ offsiteRestoreReplay [⟨"r\\1".toList,
        [⟨"f".toList, "h1".toList, "add".toList⟩,
         ⟨"f".toList, "h1".toList, "add".toList⟩], ["h1".toList]⟩] =
      some ⟨[(("f".toList), ("r\\1\\h1".toList))], [(("h1".toList), ("r\\1\\h1".toList))], 1⟩
  ∧ offsiteRestoreReplay [⟨"r\\1".toList,
        [⟨"f".toList, "h1".toList, "modify".toList⟩], ["h1".toList]⟩] = some ⟨[], [], 1⟩
  ∧ offsiteRestoreReplay [⟨"r\\1".toList,
        [⟨"f".toList, "h1".toList, "remove".toList⟩], ["h1".toList]⟩] = some ⟨[], [], 1⟩
  ∧ offsiteRestoreReplay [⟨"r\\1".toList,
        [⟨"f".toList, "h9".toList, "add".toList⟩], []⟩] = none := by
  exact ⟨by decide, by decide, by decide, by decide, by decide⟩

/-- C3 counterexample: with a one-file source identical to the committed
historical manifest, the second `Offsite` run yields `none` — the
"No content to apply." early return with result 1, which writes no
`data.json` and copies no blobs — rather than a second snapshot whose
`data.json` describes zero entries. -/
theorem C3_counterexample_no_snapshot :
    offsiteApply
      (createWork [(("c".toList), ⟨"c".toList, 3, 0, some ("h3".toList)⟩)]
        [(("c".toList), ⟨"c".toList, 3, 0, some ("h3".toList)⟩)]
        toDestIdentity fromDestIdentity false)
      [some ("h3".toList)] ("out".toList) = none := by
  decide

/-- C7: Restore replay folds the snapshot directories in ascending
name-sorted order (the input below is deliberately given in reverse):
snapshot `root\1` adds `a` (hash aaaa) and `b` (hash bbbb), snapshot
`root\2` modifies `a` to hash cccc and removes `b`; the resulting map
contains exactly one entry, `a`, bound to the blob of hash cccc in
`root\2`. -/
theorem C7_restore_replay_chain :
    (offsiteRestoreReplay
      [⟨"root\\2".toList,
        [⟨"a".toList, "cccc".toList, "modify".toList⟩,
         ⟨"b".toList, "bbbb".toList, "remove".toList⟩], ["cccc".toList]⟩,
       ⟨"root\\1".toList,
        [⟨"a".toList, "aaaa".toList, "add".toList⟩,
         ⟨"b".toList, "bbbb".toList, "add".toList⟩],
        ["aaaa".toList, "bbbb".toList]⟩]).map (fun st => st.file_data) =
      some [(("a".toList), ("root\\2\\cccc".toList))] := by
  decide

/-- C8 counterexample: with source scan order `b` before `a` and an empty
destination, the planner reports the adds in scan order `[b, a]`, which is
not sorted ascending by source path. -/
theorem C8_counterexample_unsorted_output :
    ((createWork (buildMap [⟨"b".toList, 1, 0, none⟩, ⟨"a".toList, 2, 0, none⟩])
        (buildMap []) toDestIdentity fromDestIdentity false).addsMods.map
      (fun e => e.1.Name)) = [("b".toList), ("a".toList)]
  ∧ isSortedAsc [("b".toList), ("a".toList)] = false := by
  exact ⟨by decide, by decide⟩

/-- C9: The dir-substitution pass deletes every entry whose filename is
unchanged by the substitution (the `del` is unconditional), crashes with a
`KeyError` as soon as two substitution pairs are supplied, and rewrites
every occurrence of the key — not only a prefix: `\a\b\a\c` under
`{\a: \z}` becomes `\z\b\z\c`, not `\z` followed by the remainder
`\b\a\c`. -/
theorem C9_dir_substitution_behavior :
    applyDirSubstitutions [(("\\q".toList), ("\\r".toList))]
        [(("C:\\a\\x.txt".toList), ("BLOB".toList))] = some []
  ∧ applyDirSubstitutions
      [(("\\q".toList), ("\\r".toList)), (("\\s".toList), ("\\t".toList))]
      [(("C:\\a\\x.txt".toList), ("BLOB".toList))] = none
  ∧ applyDirSubstitutions [(("\\a".toList), ("\\z".toList))]
      [(("\\a\\b\\a\\c".toList), ("BLOB".toList))] =
        some [(("\\z\\b\\z\\c".toList), ("BLOB".toList))]
  ∧ ("\\z\\b\\z\\c".toList : PyStr) ≠ "\\z".toList ++ "\\b\\a\\c".toList := by
  exact ⟨by decide, by decide, by decide, by decide⟩

theorem append_cons_ne_self (l t : List α) (c : α) : l ++ c :: t ≠ l := by
  intro h
  have hl := congrArg List.length h
  rw [List.length_append, List.length_cons] at hl
  omega

/-- C6: Fingerprint equality: `AreEqual` holds iff the sizes match exactly,
the last-modified times differ by at most `1e-5`, and — when hashes are
compared (`simple_compare` false) — the hashes are equal; and two FileInfos
of equal size and hash whose last-modified times differ by `1e-4` compare
unequal, with hash comparison both on and off. -/
theorem C6_fingerprint_equality :
    (∀ a b : FileInfo, ∀ ch : Bool,
        FileInfo.AreEqual a b ch = true ↔
          (a.Size = b.Size ∧ |a.LastModified - b.LastModified| ≤ 1 / 100000 ∧
            (ch = true → a.Hash = b.Hash)))
  ∧ (∀ a b : FileInfo, ∀ ch : Bool,
        a.Size = b.Size → a.Hash = b.Hash →
        |a.LastModified - b.LastModified| = 1 / 10000 →
        FileInfo.AreEqual a b ch = false) := by
  constructor
  · intro a b ch
    cases ch <;>
      simp [FileInfo.AreEqual, Bool.and_eq_true, decide_eq_true_eq,
        mtimeWithinTolerance_iff, and_assoc]
  · intro a b ch h1 h2 h3
    have hm : mtimeWithinTolerance a.LastModified b.LastModified = false := by
      rw [← Bool.not_eq_true, mtimeWithinTolerance_iff, h3]
      norm_num
    simp [FileInfo.AreEqual, hm]

/-- C6 witness: two FileInfos of equal size and hash whose mtimes differ by
exactly `1e-4` compare unequal. -/
theorem C6_fingerprint_equality_witness :
    FileInfo.AreEqual ⟨"w".toList, 3, 0, none⟩ ⟨"w".toList, 3, 1 / 10000, none⟩ true =
      false :=
  C6_fingerprint_equality.2 _ _ true rfl rfl
    (by rw [zero_sub, abs_neg, abs_of_nonneg (by norm_num : (0:ℚ) ≤ 1 / 10000)])

/-- C4: `CommitOffsite` without a `.pending` file reports an error (result
-1) and leaves the file system — in particular the live historical
manifest — unchanged; with a `.pending` file present it deletes the live
file, renames `.pending` over it (result 0, live contents become the old
pending contents, the pending file is gone), and, when a non-empty backup
suffix is supplied, additionally copies the committed file to
`<live>.<suffix>`. -/
theorem C4_commit_offsite (fs : PyFS) (json : PyStr) (suffix : Option PyStr)
    (hnd : (fs.map Prod.fst).Nodup) :
    (isfile fs (json ++ ".pending".toList) = false →
        CommitOffsite fs json suffix = (fs, -1))
  ∧ (isfile fs (json ++ ".pending".toList) = true →
        (CommitOffsite fs json suffix).2 = 0
      ∧ dictGet (CommitOffsite fs json suffix).1 json =
          dictGet fs (json ++ ".pending".toList)
      ∧ (suffix = none →
          isfile (CommitOffsite fs json suffix).1 (json ++ ".pending".toList) = false)
      ∧ (∀ s, suffix = some s → s ≠ [] →
            dictGet (CommitOffsite fs json suffix).1 (json ++ '.' :: s) =
              dictGet fs (json ++ ".pending".toList)
          ∧ (s ≠ "pending".toList →
              isfile (CommitOffsite fs json suffix).1 (json ++ ".pending".toList) =
                false))) := by
  constructor
  · intro h
    unfold CommitOffsite
    rw [if_pos h]
  · intro h
    have h' : (dictGet fs (json ++ ".pending".toList)).isSome = true := h
    obtain ⟨c, hc⟩ := Option.isSome_iff_exists.mp h'
    have hcond : ¬(isfile fs (json ++ ".pending".toList) = false) := by
      rw [h]
      exact fun he => Bool.noConfusion he
    have hlen : ((".pending".toList : List Char)).length = 8 := rfl
    have hPne : json ++ ".pending".toList ≠ json := by
      intro he
      have hl := congrArg List.length he
      rw [List.length_append, hlen] at hl
      omega
    have hnd1 : ((dictDel fs json).map Prod.fst).Nodup := nodup_keys_dictDel fs json hnd
    have hget1 : dictGet (dictDel fs json) (json ++ ".pending".toList) = some c := by
      rw [dictGet_del_ne fs json _ hPne]
      exact hc
    have hswap : commitSwap fs json =
        dictSet (dictDel (dictDel fs json) (json ++ ".pending".toList)) json c := by
      simp only [commitSwap, removeFileFS, moveFS, hget1]
    have hlive : dictGet (commitSwap fs json) json = some c := by
      rw [hswap]
      exact dictGet_set_self _ _ _
    have hpend_gone : dictGet (commitSwap fs json) (json ++ ".pending".toList) = none := by
      rw [hswap, dictGet_set_ne _ _ _ _ hPne]
      exact dictGet_del_self _ _ hnd1
    rcases suffix with _ | s
    · have hCO : CommitOffsite fs json none = (commitSwap fs json, 0) := by
        unfold CommitOffsite
        rw [if_neg hcond]
      refine ⟨?_, ?_, ?_, ?_⟩
      · rw [hCO]
      · rw [hCO, hlive, hc]
      · intro _
        rw [hCO]
        simp only [isfile, dictContains, hpend_gone, Option.isSome_none]
      · intro s hs
        exact Option.noConfusion hs
    · by_cases hs : s = []
      · subst hs
        have hCO : CommitOffsite fs json (some []) = (commitSwap fs json, 0) := by
          unfold CommitOffsite
          rw [if_neg hcond]
          show (if ([] : PyStr) ≠ [] then _ else _, (0 : Int)) = _
          rw [if_neg (fun he => he rfl)]
        refine ⟨?_, ?_, ?_, ?_⟩
        · rw [hCO]
        · rw [hCO, hlive, hc]
        · intro he
          exact Option.noConfusion he
        · intro s' hs' hne
          cases hs'
          exact absurd rfl hne
      · have hjson_ne : json ≠ json ++ '.' :: s := (append_cons_ne_self json s '.').symm
        have hCO : CommitOffsite fs json (some s) =
            (copyFS (commitSwap fs json) json (json ++ '.' :: s), 0) := by
          unfold CommitOffsite
          rw [if_neg hcond]
          show (if s ≠ [] then _ else _, (0 : Int)) = _
          rw [if_pos hs]
        have hcopy : copyFS (commitSwap fs json) json (json ++ '.' :: s) =
            dictSet (commitSwap fs json) (json ++ '.' :: s) c := by
          simp only [copyFS, hlive]
        refine ⟨?_, ?_, ?_, ?_⟩
        · rw [hCO]
        · rw [hCO]
          show dictGet (copyFS (commitSwap fs json) json (json ++ '.' :: s)) json = _
          rw [hcopy, dictGet_set_ne _ _ _ _ hjson_ne, hlive, hc]
        · intro he
          exact Option.noConfusion he
        · intro s' hs' hne
          cases hs'
          refine ⟨?_, ?_⟩
          · rw [hCO]
            show dictGet (copyFS (commitSwap fs json) json (json ++ '.' :: s)) _ = _
            rw [hcopy, dictGet_set_self, hc]
          · intro hspend
            have hPne2 : json ++ ".pending".toList ≠ json ++ '.' :: s := by
              intro he
              have h2 : ('.' :: "pending".toList : List Char) = '.' :: s :=
                List.append_cancel_left he
              exact hspend (List.cons.inj h2).2.symm
            rw [hCO]
            show isfile (copyFS (commitSwap fs json) json (json ++ '.' :: s)) _ = _
            rw [isfile, dictContains, hcopy, dictGet_set_ne _ _ _ _ hPne2, hpend_gone]
            rfl

/-- C4 witness: committing a concrete pending manifest with the non-empty
suffix `2019` succeeds and installs the pending contents as the live
manifest. -/
theorem C4_commit_offsite_witness :
    dictGet (CommitOffsite [(("n.backup.pending".toList), ("DATA".toList))]
        ("n.backup".toList) (some ("2019".toList))).1 ("n.backup".toList) =
      some ("DATA".toList) := by
  have h := (C4_commit_offsite [(("n.backup.pending".toList), ("DATA".toList))]
      ("n.backup".toList) (some ("2019".toList)) (by decide)).2 (by decide)
  exact h.2.1.trans (by decide)

/-- C10: In the scanner's filter, exclusion takes precedence over
inclusion: a file matched by an exclude pattern is omitted from the output
even when an include pattern also matches it; and a file is kept exactly
when it is among the inputs, no exclude pattern matches it, and — when
include patterns exist — some include pattern matches it. -/
theorem C10_exclude_precedence (includes excludes : List (PyStr → Bool))
    (files : List PyStr) (f : PyStr) (hex : ∃ e ∈ excludes, e f = true) :
    f ∉ filterInputFiles includes excludes files
  ∧ (∀ g, g ∈ filterInputFiles includes excludes files ↔
        g ∈ files ∧ (∀ e ∈ excludes, e g = false) ∧
          (includes = [] ∨ ∃ i ∈ includes, i g = true)) := by
  have hexne : excludes.isEmpty = false := by
    rcases hex with ⟨e, he, _⟩
    cases excludes
    · cases he
    · rfl
  have hbool : ∀ (l : List (PyStr → Bool)) (g : PyStr),
      (l.any (fun r => r g) = false) ↔ (∀ e ∈ l, e g = false) := by
    intro l g
    rw [List.any_eq_false]
    constructor
    · intro hh e he
      have := hh e he
      simpa using this
    · intro hh e he
      simp [hh e he]
  have hchar : ∀ g, g ∈ filterInputFiles includes excludes files ↔
      g ∈ files ∧ (∀ e ∈ excludes, e g = false) ∧
        (includes = [] ∨ ∃ i ∈ includes, i g = true) := by
    intro g
    rw [filterInputFiles, if_neg (by simp [hexne]), List.mem_filter]
    simp only [hexne, Bool.false_eq_true, if_false, Bool.and_eq_true, Bool.not_eq_true']
    rw [hbool excludes g]
    cases hinc : includes.isEmpty
    · simp only [hinc, Bool.false_eq_true, if_false, List.any_eq_true]
      constructor
      · rintro ⟨hg, hexc, hincl⟩
        exact ⟨hg, hexc, Or.inr hincl⟩
      · rintro ⟨hg, hexc, hincl | hincl⟩
        · rw [hincl] at hinc
          simp at hinc
        · exact ⟨hg, hexc, hincl⟩
    · simp only [hinc, eq_self_iff_true, if_true, and_true]
      constructor
      · rintro ⟨hg, hexc⟩
        exact ⟨hg, hexc, Or.inl (List.isEmpty_iff.mp hinc)⟩
      · rintro ⟨hg, hexc, _⟩
        exact ⟨hg, hexc⟩
  refine ⟨fun hmem => ?_, hchar⟩
  obtain ⟨hg, hall, _⟩ := (hchar f).mp hmem
  obtain ⟨e, he, het⟩ := hex
  rw [hall e he] at het
  cases het

/-- C10 witness: a file matched by both the (single) exclude pattern and
the (single) include pattern is omitted from the scan output. -/
theorem C10_exclude_precedence_witness :
    ("x".toList : PyStr) ∉ filterInputFiles [fun g => decide (g = "x".toList)]
      [fun g => decide (g = "x".toList)] [("x".toList)] :=
  (C10_exclude_precedence [fun g => decide (g = "x".toList)]
    [fun g => decide (g = "x".toList)] [("x".toList)] ("x".toList)
    ⟨fun g => decide (g = "x".toList), List.mem_singleton.mpr rfl, by decide⟩).1

/-- C8 amended: the planner applies no sorting: the reported adds and
modifies form an order-preserving sublist of the source fingerprint list
(scan/insertion order), and the removes an order-preserving sublist of the
destination list, so the output is a deterministic function of the input
enumeration but is sorted only when the inputs are. -/
theorem C8_amended_planner_order (source_map dest_map : List (PyStr × FileInfo))
    (toDest fromDest : PyStr → PyStr) (sc : Bool) :
    ((createWork source_map dest_map toDest fromDest sc).addsMods.map Prod.fst).Sublist
      (source_map.map Prod.snd)
  ∧ (createWork source_map dest_map toDest fromDest sc).removes.Sublist
      (dest_map.map Prod.snd) := by
  constructor
  · exact sublist_map_filterMap _ _ _
      (fun p x hx => workEntry_some_fst dest_map toDest sc p.2 x hx) source_map
  · exact (List.filter_sublist _).map Prod.snd

/-- C3 amended: running `Offsite` a second time with an unchanged source
set produces no second snapshot at all: the planner finds no adds,
modifies or removes, the `data` list is empty, and `Offsite` returns early
with result 1 ("No content to apply.") without writing `data.json` or
copying any blob. -/
theorem C3_amended_no_second_snapshot (m : List (PyStr × FileInfo)) (hm : MapWF m)
    (dest_hashes : List (Option PyStr)) (output_dir : PyStr) :
    offsiteApply (createWork m m toDestIdentity fromDestIdentity false) dest_hashes
      output_dir = none := by
  have hentry : ∀ p ∈ m, workEntry m toDestIdentity false p.2 = none := by
    intro p hp
    have hget : dictGet m p.2.Name = some p.2 :=
      hm.1 p hp ▸ nodup_dictGet m hm.2 p hp
    simp [workEntry, toDestIdentity, hget, FileInfo.areEqual_refl]
  have h1 : (createWork m m toDestIdentity fromDestIdentity false).addsMods = [] := by
    simp only [createWork]
    exact List.filterMap_eq_nil_iff.mpr hentry
  have h2 : (createWork m m toDestIdentity fromDestIdentity false).removes = [] := by
    simp only [createWork]
    rw [List.filter_eq_nil_iff.mpr, List.map_nil]
    intro p hp
    have hget : dictGet m p.2.Name = some p.2 :=
      hm.1 p hp ▸ nodup_dictGet m hm.2 p hp
    simp [fromDestIdentity, dictContains, hget]
  simp [offsiteApply, offsiteCreateData, h1, h2]

/-- C3 amended witness: a concrete two-file unchanged source yields the
"no content" early return. -/
theorem C3_amended_witness :
    offsiteApply (createWork
        [(("a".toList), ⟨"a".toList, 1, 0, some ("h1".toList)⟩),
         (("b".toList), ⟨"b".toList, 2, 0, some ("h2".toList)⟩)]
        [(("a".toList), ⟨"a".toList, 1, 0, some ("h1".toList)⟩),
         (("b".toList), ⟨"b".toList, 2, 0, some ("h2".toList)⟩)]
        toDestIdentity fromDestIdentity false) [] ("out".toList) = none :=
  C3_amended_no_second_snapshot
    [(("a".toList), ⟨"a".toList, 1, 0, some ("h1".toList)⟩),
     (("b".toList), ⟨"b".toList, 2, 0, some ("h2".toList)⟩)] (by decide) [] ("out".toList)

/-- C5: Plan completeness: for a planner run over well-formed source and
destination maps (name-keyed, unique keys) whose mapper sends destination
names colliding with source names back into the source set, the counters
satisfy `added + modified + removed + matched = |S| + |dest files whose
mapped-back source is absent from S|`, and no filename appears in more
than one of the add/modify/match (source names) and remove (destination
names) buckets. -/
theorem C5_plan_completeness (source_map dest_map : List (PyStr × FileInfo))
    (toDest fromDest : PyStr → PyStr) (sc : Bool)
    (hs : MapWF source_map) (hd : MapWF dest_map)
    (hcross : ∀ n ∈ dest_map.map Prod.fst, n ∈ source_map.map Prod.fst →
        fromDest n ∈ source_map.map Prod.fst) :
    ((createWork source_map dest_map toDest fromDest sc).added +
        (createWork source_map dest_map toDest fromDest sc).modified +
        (createWork source_map dest_map toDest fromDest sc).removed +
        (createWork source_map dest_map toDest fromDest sc).matched =
      source_map.length +
        (dest_map.filter
          (fun p => !dictContains source_map (fromDest p.2.Name))).length)
  ∧ (∀ n, ¬(n ∈ (createWork source_map dest_map toDest fromDest sc).addNames ∧
        n ∈ (createWork source_map dest_map toDest fromDest sc).modNames))
  ∧ (∀ n, ¬(n ∈ (createWork source_map dest_map toDest fromDest sc).addNames ∧
        n ∈ matchedNames source_map dest_map toDest sc))
  ∧ (∀ n, ¬(n ∈ (createWork source_map dest_map toDest fromDest sc).modNames ∧
        n ∈ matchedNames source_map dest_map toDest sc))
  ∧ (∀ n, ¬(n ∈ (createWork source_map dest_map toDest fromDest sc).addNames ∧
        n ∈ (createWork source_map dest_map toDest fromDest sc).removeNames))
  ∧ (∀ n, ¬(n ∈ (createWork source_map dest_map toDest fromDest sc).modNames ∧
        n ∈ (createWork source_map dest_map toDest fromDest sc).removeNames))
  ∧ (∀ n, ¬(n ∈ matchedNames source_map dest_map toDest sc ∧
        n ∈ (createWork source_map dest_map toDest fromDest sc).removeNames)) := by
  have hAM : ∀ x ∈ (createWork source_map dest_map toDest fromDest sc).addsMods,
      ∃ p ∈ source_map, workEntry dest_map toDest sc p.2 = some x := by
    intro x hx
    simp only [createWork] at hx
    exact List.mem_filterMap.mp hx
  have hAname : ∀ n, n ∈ (createWork source_map dest_map toDest fromDest sc).addNames →
      ∃ p ∈ source_map, p.1 = n ∧
        ∃ d, workEntry dest_map toDest sc p.2 = some (p.2, Sum.inl d) := by
    intro n hn
    simp only [Work.addNames, List.mem_map, List.mem_filter] at hn
    obtain ⟨e, ⟨heAM, heL⟩, heN⟩ := hn
    obtain ⟨p, hp, hpe⟩ := hAM e heAM
    have he1 : e.1 = p.2 := workEntry_some_fst _ _ _ _ _ hpe
    rcases e with ⟨efi, d | dfi⟩
    · simp only at he1
      refine ⟨p, hp, ?_, d, ?_⟩
      · rw [hs.1 p hp, ← he1]
        exact heN
      · rw [hpe, he1]
    · simp at heL
  have hMname : ∀ n, n ∈ (createWork source_map dest_map toDest fromDest sc).modNames →
      ∃ p ∈ source_map, p.1 = n ∧
        ∃ dfi, workEntry dest_map toDest sc p.2 = some (p.2, Sum.inr dfi) := by
    intro n hn
    simp only [Work.modNames, List.mem_map, List.mem_filter] at hn
    obtain ⟨e, ⟨heAM, heR⟩, heN⟩ := hn
    obtain ⟨p, hp, hpe⟩ := hAM e heAM
    have he1 : e.1 = p.2 := workEntry_some_fst _ _ _ _ _ hpe
    rcases e with ⟨efi, d | dfi⟩
    · simp at heR
    · simp only at he1
      refine ⟨p, hp, ?_, dfi, ?_⟩
      · rw [hs.1 p hp, ← he1]
        exact heN
      · rw [hpe, he1]
  have hTname : ∀ n, n ∈ matchedNames source_map dest_map toDest sc →
      ∃ p ∈ source_map, p.1 = n ∧ workEntry dest_map toDest sc p.2 = none := by
    intro n hn
    simp only [matchedNames, List.mem_map, List.mem_filter] at hn
    obtain ⟨p, ⟨hp, hnone⟩, hp1⟩ := hn
    exact ⟨p, hp, hp1, Option.isNone_iff_eq_none.mp hnone⟩
  have hRname : ∀ n,
      n ∈ (createWork source_map dest_map toDest fromDest sc).removeNames →
      n ∈ dest_map.map Prod.fst ∧ fromDest n ∉ source_map.map Prod.fst := by
    intro n hn
    simp only [Work.removeNames, Work.removes, createWork, List.map_map, List.mem_map,
      List.mem_filter, Function.comp] at hn
    obtain ⟨d, ⟨hdm, hdc⟩, hdN⟩ := hn
    have hd2 : d.2.Name = n := hdN
    have hd1 : d.1 = n := by
      rw [hd.1 d hdm]
      exact hd2
    have hnone : dictGet source_map (fromDest d.2.Name) = none := by
      rcases hget : dictGet source_map (fromDest d.2.Name) with _ | v
      · rfl
      · rw [Bool.not_eq_true', dictContains, hget] at hdc
        cases hdc
    constructor
    · rw [← hd1]
      exact List.mem_map_of_mem Prod.fst hdm
    · rw [← hd2]
      exact (dictGet_none_iff source_map (fromDest d.2.Name)).mp hnone
  refine ⟨?_, ?_, ?_, ?_, ?_, ?_, ?_⟩
  · simp only [Work.added, Work.modified, Work.removed, Work.matched, createWork,
      List.length_map]
    have h1 := length_filter_left_add_right
      (source_map.filterMap (fun p => workEntry dest_map toDest sc p.2))
    have h2 := length_filterMap_add_none
      (fun p => workEntry dest_map toDest sc p.2) source_map
    omega
  · rintro n ⟨hna, hnm⟩
    obtain ⟨p, hp, hp1, d, hpe⟩ := hAname n hna
    obtain ⟨q, hq, hq1, dfi, hqe⟩ := hMname n hnm
    have hpq : p = q := nodup_keys_mem_eq hs.2 hp hq (hp1.trans hq1.symm)
    rw [hpq, hqe] at hpe
    simp at hpe
  · rintro n ⟨hna, hnt⟩
    obtain ⟨p, hp, hp1, d, hpe⟩ := hAname n hna
    obtain ⟨q, hq, hq1, hqe⟩ := hTname n hnt
    have hpq : p = q := nodup_keys_mem_eq hs.2 hp hq (hp1.trans hq1.symm)
    rw [hpq, hqe] at hpe
    cases hpe
  · rintro n ⟨hnm, hnt⟩
    obtain ⟨p, hp, hp1, dfi, hpe⟩ := hMname n hnm
    obtain ⟨q, hq, hq1, hqe⟩ := hTname n hnt
    have hpq : p = q := nodup_keys_mem_eq hs.2 hp hq (hp1.trans hq1.symm)
    rw [hpq, hqe] at hpe
    cases hpe
  · rintro n ⟨hna, hnr⟩
    obtain ⟨p, hp, hp1, _, _⟩ := hAname n hna
    have hnsrc : n ∈ source_map.map Prod.fst := hp1 ▸ List.mem_map_of_mem Prod.fst hp
    obtain ⟨hndst, hnot⟩ := hRname n hnr
    exact hnot (hcross n hndst hnsrc)
  · rintro n ⟨hnm, hnr⟩
    obtain ⟨p, hp, hp1, _, _⟩ := hMname n hnm
    have hnsrc : n ∈ source_map.map Prod.fst := hp1 ▸ List.mem_map_of_mem Prod.fst hp
    obtain ⟨hndst, hnot⟩ := hRname n hnr
    exact hnot (hcross n hndst hnsrc)
  · rintro n ⟨hnt, hnr⟩
    obtain ⟨p, hp, hp1, _⟩ := hTname n hnt
    have hnsrc : n ∈ source_map.map Prod.fst := hp1 ▸ List.mem_map_of_mem Prod.fst hp
    obtain ⟨hndst, hnot⟩ := hRname n hnr
    exact hnot (hcross n hndst hnsrc)

/-- C5 witness: a concrete identity-mapped run with one add (`a`), one
match (`b`) and one remove (`c`) satisfies the counter equation
`1 + 0 + 1 + 1 = 2 + 1`. -/
theorem C5_plan_completeness_witness :
    (createWork
        [(("a".toList), ⟨"a".toList, 1, 0, some ("ha".toList)⟩),
         (("b".toList), ⟨"b".toList, 2, 0, some ("hb".toList)⟩)]
        [(("b".toList), ⟨"b".toList, 2, 0, some ("hb".toList)⟩),
         (("c".toList), ⟨"c".toList, 3, 0, some ("hc".toList)⟩)]
        toDestIdentity fromDestIdentity false).added +
      (createWork
        [(("a".toList), ⟨"a".toList, 1, 0, some ("ha".toList)⟩),
         (("b".toList), ⟨"b".toList, 2, 0, some ("hb".toList)⟩)]
        [(("b".toList), ⟨"b".toList, 2, 0, some ("hb".toList)⟩),
         (("c".toList), ⟨"c".toList, 3, 0, some ("hc".toList)⟩)]
        toDestIdentity fromDestIdentity false).modified +
      (createWork
        [(("a".toList), ⟨"a".toList, 1, 0, some ("ha".toList)⟩),
         (("b".toList), ⟨"b".toList, 2, 0, some ("hb".toList)⟩)]
        [(("b".toList), ⟨"b".toList, 2, 0, some ("hb".toList)⟩),
         (("c".toList), ⟨"c".toList, 3, 0, some ("hc".toList)⟩)]
        toDestIdentity fromDestIdentity false).removed +
      (createWork
        [(("a".toList), ⟨"a".toList, 1, 0, some ("ha".toList)⟩),
         (("b".toList), ⟨"b".toList, 2, 0, some ("hb".toList)⟩)]
        [(("b".toList), ⟨"b".toList, 2, 0, some ("hb".toList)⟩),
         (("c".toList), ⟨"c".toList, 3, 0, some ("hc".toList)⟩)]
        toDestIdentity fromDestIdentity false).matched =
    ([(("a".toList), (⟨"a".toList, 1, 0, some ("ha".toList)⟩ : FileInfo)),
      (("b".toList), ⟨"b".toList, 2, 0, some ("hb".toList)⟩)]).length +
      (([(("b".toList), (⟨"b".toList, 2, 0, some ("hb".toList)⟩ : FileInfo)),
         (("c".toList), ⟨"c".toList, 3, 0, some ("hc".toList)⟩)]).filter
        (fun p => !dictContains
          [(("a".toList), (⟨"a".toList, 1, 0, some ("ha".toList)⟩ : FileInfo)),
           (("b".toList), ⟨"b".toList, 2, 0, some ("hb".toList)⟩)]
          (fromDestIdentity p.2.Name))).length :=
  (C5_plan_completeness
    [(("a".toList), ⟨"a".toList, 1, 0, some ("ha".toList)⟩),
     (("b".toList), ⟨"b".toList, 2, 0, some ("hb".toList)⟩)]
    [(("b".toList), ⟨"b".toList, 2, 0, some ("hb".toList)⟩),
     (("c".toList), ⟨"c".toList, 3, 0, some ("hc".toList)⟩)]
    toDestIdentity fromDestIdentity false (by decide) (by decide) (by decide)).1
